import Mathlib

/-!
Shallow embedding of the rclac RPN calculator (src/main.rs) and proofs
about its evaluator.

Modelling conventions:
- `isize` values are modelled as `Int`.  Arithmetic is modelled as
  non-trapping (the semantics of a release build, idealised to unbounded
  integers); `isize::from_str` keeps its 64-bit range check, since the
  parser rejects out-of-range literals in every build.
- The stack `Vec<isize>` is a `List Int` with the head as top of stack.
- The `HashMap<String, isize>` variable table is an association list
  read through `List.lookup`; `insert` front-conses, so lookups see the
  latest binding (observably the same as the hash map).
- The two regexes `=([a-zA-Z][a-zA-Z0-9]*)` and `\$([a-zA-Z][a-zA-Z0-9]*)`
  search unanchored; `findIdentAfter` reproduces the leftmost match with
  a greedy `[a-zA-Z0-9]*`.
- `execP`/`evalLineP` instrument the panics a release build can hit:
  the `.unwrap()` calls in `State::pop2` and the division panic of
  `a / b` at `isize::MIN / -1` (division overflow is checked in every
  Rust build profile, unlike `+`/`-`/`*`, which wrap in release); an
  outer `none` marks a panic of the session.  The values themselves stay
  idealised to unbounded `Int`, which is exact on any trace in which no
  wrapping has occurred.
- Release-build `isize` addition and multiplication wrap to 64 bits;
  `wrapAdd`/`wrapMul`/`isizeSum`/`isizeProd` model this where a claim's
  truth depends on overflow (the sum-all/product-all semantics), while
  `State.exec` keeps the idealised unbounded arithmetic used by the
  overflow-independent claims.
- Whitespace splitting uses ASCII whitespace (`Char.isWhitespace`);
  Rust's `split_whitespace` also splits on the remaining Unicode
  White_Space characters.
-/

namespace Rclac

/-- The operation enumeration (`enum Op` in main.rs). -/
inductive Op where
  | Add
  | Clear
  | Div
  | Double
  | Exp
  | Fact
  | Inv
  | Mul
  | Noop
  | Prod
  | Push (value : Int)
  | Square
  | Sub
  | Sum
  | Swap
  | VarInit (name : String)
  | VarRef (name : String)
deriving DecidableEq

/-- Machine state: the numeric stack (head = top) and the variable table
(`struct State` in main.rs). -/
structure State where
  stack : List Int
  vars : List (String × Int)
deriving DecidableEq

/-- `State::new`: empty stack, empty variable table (the `Vec` capacity
hint is a performance detail). -/
def State.new : State := ⟨[], []⟩

/-- `save_div(a, b)`: `None` when the divisor `b` is zero, otherwise the
truncating quotient `a / b` (Rust integer division truncates toward
zero, i.e. `Int.tdiv`).  The `a / b` inside is idealised total here;
`divPanic`/`save_divP` below model its real overflow panic. -/
def save_div (a b : Int) : Option Int :=
  if b = 0 then none else some (Int.tdiv a b)

/-- Rust `isize` division `a / b` itself: it panics (`none`) on a zero
divisor and on the overflowing `isize::MIN / -1`, in every build
profile. -/
def divPanic (a b : Int) : Option Int :=
  if b = 0 then none
  else if a = -(2 ^ 63) ∧ b = -1 then none
  else some (Int.tdiv a b)

/-- `save_div` with the panic of its `a / b` made explicit: the guard
turns a zero divisor into `some none` (the source's `None`); an
overflowing division panics (outer `none`). -/
def save_divP (a b : Int) : Option (Option Int) :=
  if b = 0 then some none
  else
    match divPanic a b with
    | some q => some (some q)
    | none => none

/-- Rust's `a as u32` cast on a 64-bit `isize`: the value modulo `2^32`,
as a natural number. -/
def asU32 (a : Int) : Nat := (a % (2 ^ 32 : Int)).toNat

/-- `(1..a + 1).product()`: the product of `1, ..., a`; an empty range
(for `a ≤ 0`) gives `1`. -/
def rangeProd (a : Int) : Int :=
  ((List.range a.toNat).map (fun i => (i : Int) + 1)).prod

/-- `State::apply`: pop one value, apply `f`, push the result; nothing
happens on an empty stack. -/
def State.apply (s : State) (f : Int → Int) : State :=
  match s.stack with
  | a :: rest => { s with stack := f a :: rest }
  | [] => s

/-- `State::apply2` via `State::pop2`: with `a` the old top and `b` the
element under it, pop both and push `f a b`; nothing happens when the
stack has fewer than two elements. -/
def State.apply2 (s : State) (f : Int → Int → Int) : State :=
  match s.stack with
  | a :: b :: rest => { s with stack := f a b :: rest }
  | _ => s

/-- `State::exec`: execute one operation against the machine state. -/
def State.exec (s : State) (op : Op) : State :=
  match op with
  | .Add => s.apply2 (fun a b => a + b)
  | .Clear => { s with stack := [] }
  | .Div => s.apply2 (fun a b => (save_div b a).getD 0)
  | .Double => s.apply (fun a => a * 2)
  | .Exp => s.apply2 (fun a b => b ^ asU32 a)
  | .Fact => s.apply (fun a => rangeProd a)
  | .Square => s.apply (fun a => a ^ 2)
  | .Sub => s.apply2 (fun a b => b - a)
  | .Mul => s.apply2 (fun a b => a * b)
  | .Inv => s.apply (fun a => -a)
  | .Prod => { s with stack := [s.stack.prod] }
  | .Push value => { s with stack := value :: s.stack }
  | .Sum => { s with stack := [s.stack.sum] }
  | .Swap =>
    match s.stack with
    | a :: b :: rest => { s with stack := b :: a :: rest }
    | _ => s
  | .VarInit name =>
    match s.stack with
    | a :: rest => { stack := rest, vars := (name, a) :: s.vars }
    | [] => s
  | .VarRef name =>
    match s.vars.lookup name with
    | some a => { s with stack := a :: s.stack }
    | none => s
  | .Noop => s

/-- `State::peek`: the top of the stack, if any. -/
def State.peek (s : State) : Option Int := s.stack.head?

/-! ## Release-build wrapping arithmetic

A release build's `isize` addition and multiplication wrap to the
signed 64-bit range (a debug build panics on overflow instead).  The
`Op::Sum`/`Op::Prod` branches fold these wrapping operations over the
drained stack, bottom of the stack first. -/

/-- Whether `v` lies in the signed 64-bit (`isize`) range. -/
def inRange64 (v : Int) : Bool :=
  decide (-(2 ^ 63) ≤ v) && decide (v ≤ 2 ^ 63 - 1)

/-- Wrap an integer into the signed 64-bit (`isize`) range. -/
def wrap64 (v : Int) : Int := (v + 2 ^ 63) % 2 ^ 64 - 2 ^ 63

/-- Release-build `isize` addition: overflow wraps. -/
def wrapAdd (x y : Int) : Int := wrap64 (x + y)

/-- Release-build `isize` multiplication: overflow wraps. -/
def wrapMul (x y : Int) : Int := wrap64 (x * y)

/-- `self.drain().sum()` in a release build: fold wrapping addition over
the drained elements, bottom of the stack (the model list's last
element) first. -/
def isizeSum (stack : List Int) : Int := stack.reverse.foldl wrapAdd 0

/-- `self.drain().product()` in a release build: fold wrapping
multiplication over the drained elements, bottom first. -/
def isizeProd (stack : List Int) : Int := stack.reverse.foldl wrapMul 1

/-- The `Op::Sum` branch of `State::exec` in a release build: drain the
whole stack and push the wrapping sum. -/
def execSumRelease (s : State) : State := { s with stack := [isizeSum s.stack] }

/-- The `Op::Prod` branch of `State::exec` in a release build: drain the
whole stack and push the wrapping product. -/
def execProdRelease (s : State) : State := { s with stack := [isizeProd s.stack] }

/-- All intermediate accumulator values of a left fold of `f` stay in
the `isize` range (the fold therefore never overflows). -/
def foldInRangeBy (f : Int → Int → Int) : Int → List Int → Bool
  | _, [] => true
  | acc, x :: xs => inRange64 (f acc x) && foldInRangeBy f (f acc x) xs

/-! ## The tokenizer / classifier -/

/-- A nonempty, all-ASCII-digit character list. -/
def isDigits (cs : List Char) : Bool := !cs.isEmpty && cs.all Char.isDigit

/-- The numeric value of a digit string, most significant digit first. -/
def digitsToNat (cs : List Char) : Nat :=
  cs.foldl (fun acc c => 10 * acc + (c.toNat - '0'.toNat)) 0

/-- `isize::from_str` on a 64-bit platform: an optional leading `+` or
`-` sign, then one or more ASCII digits, with the signed value required
to fit in `[-2^63, 2^63 - 1]`; anything else is an error (`none`). -/
def fromStr (t : String) : Option Int :=
  let signed : Option Int :=
    match t.toList with
    | '+' :: ds => if isDigits ds then some (digitsToNat ds : Int) else none
    | '-' :: ds => if isDigits ds then some (-(digitsToNat ds : Int)) else none
    | ds => if isDigits ds then some (digitsToNat ds : Int) else none
  signed.bind fun v =>
    if -(2 ^ 63 : Int) ≤ v ∧ v ≤ 2 ^ 63 - 1 then some v else none

/-- `parse_push`: an integer literal becomes `Op::Push`. -/
def parse_push (token : String) : Option Op :=
  (fromStr token).map Op.Push

/-- The capture of the unanchored regex `m([a-zA-Z][a-zA-Z0-9]*)` for a
marker character `m` (`=` or `$`): at the leftmost occurrence of `m`
followed by an ASCII letter, that letter together with the greedy run of
ASCII letters/digits after it. -/
def findIdentAfter (marker : Char) : List Char → Option (List Char)
  | [] => none
  | c :: rest =>
    if c = marker then
      match rest with
      | d :: rest2 =>
        if d.isAlpha then some (d :: rest2.takeWhile Char.isAlphanum)
        else findIdentAfter marker rest
      | [] => none
    else findIdentAfter marker rest

/-- `parse_var_init`: the capture of `INIT_RE` (`=([a-zA-Z][a-zA-Z0-9]*)`)
becomes `Op::VarInit`. -/
def parse_var_init (token : String) : Option Op :=
  (findIdentAfter '=' token.toList).map fun cs => Op.VarInit (String.mk cs)

/-- `parse_var_ref`: the capture of `VAR_RE` (`\$([a-zA-Z][a-zA-Z0-9]*)`)
becomes `Op::VarRef`. -/
def parse_var_ref (token : String) : Option Op :=
  (findIdentAfter '$' token.toList).map fun cs => Op.VarRef (String.mk cs)

/-- `parse_op`: variable assignment, then variable reference, then
integer literal, then `Op::Noop`. -/
def parse_op (token : String) : Op :=
  match parse_var_init token with
  | some op => op
  | none =>
    match parse_var_ref token with
    | some op => op
    | none =>
      match parse_push token with
      | some op => op
      | none => Op.Noop

/-- `impl From<&str> for Op`: the fixed operator/keyword tokens, with
everything else delegated to `parse_op`. -/
def tokenToOp (t : String) : Op :=
  if t = "*" then .Mul
  else if t = "**" then .Double
  else if t = "+" then .Add
  else if t = "/" then .Div
  else if t = "-" then .Sub
  else if t = "!" then .Fact
  else if t = "^" then .Exp
  else if t = "^^" then .Square
  else if t = "c" then .Clear
  else if t = "inv" then .Inv
  else if t = "swap" then .Swap
  else if t = "sum" then .Sum
  else if t = "prod" then .Prod
  else parse_op t

/-- Whether `t` is one of the thirteen fixed operator/keyword tokens of
the `match` in `impl From<&str> for Op`. -/
def isFixedToken (t : String) : Bool :=
  t = "*" || t = "**" || t = "+" || t = "/" || t = "-" || t = "!" ||
  t = "^" || t = "^^" || t = "c" || t = "inv" || t = "swap" ||
  t = "sum" || t = "prod"

/-- Spec-side definition, following the spec's token grammar words: a
token matching the anchored pattern `-?[0-9]+` (an optional leading `-`
followed by ASCII digits), together with its decimal value. -/
def specNegIntLit (t : String) : Option Int :=
  match t.toList with
  | '-' :: ds => if isDigits ds then some (-(digitsToNat ds : Int)) else none
  | ds => if isDigits ds then some (digitsToNat ds : Int) else none

/-- Spec-side definition for the amended literal grammar: a token
matching `[+-]?[0-9]+` whose decimal value lies in the signed 64-bit
range, together with that value. -/
def specSignedIntLit (t : String) : Option Int :=
  let lit : Option Int :=
    match t.toList with
    | '+' :: ds => if isDigits ds then some (digitsToNat ds : Int) else none
    | '-' :: ds => if isDigits ds then some (-(digitsToNat ds : Int)) else none
    | ds => if isDigits ds then some (digitsToNat ds : Int) else none
  lit.bind fun v =>
    if -(2 ^ 63 : Int) ≤ v ∧ v ≤ 2 ^ 63 - 1 then some v else none

/-! ## The line evaluator -/

/-- `str::split_whitespace` on the character list: maximal runs of
non-whitespace characters, in order; whitespace runs separate tokens and
produce no empty tokens. -/
def splitWSChars (cs : List Char) : List (List Char) :=
  let step : Char → List (List Char) × List Char → List (List Char) × List Char :=
    fun c (acc : List (List Char) × List Char) =>
      if c.isWhitespace then
        match acc.2 with
        | [] => acc
        | cur => (cur :: acc.1, [])
      else (acc.1, c :: acc.2)
  let r := cs.foldr step ([], [])
  match r.2 with
  | [] => r.1
  | cur => cur :: r.1

/-- `str::split_whitespace`, producing token strings. -/
def splitWhitespace (line : String) : List String :=
  (splitWSChars line.toList).map String.mk

/-- `State::eval`: split the line on whitespace, classify each token and
execute the operations left to right. -/
def State.eval (s : State) (cmds : String) : State :=
  (splitWhitespace cmds).foldl (fun st tok => st.exec (tokenToOp tok)) s

/-! ## Panic-instrumented evaluator

`State::pop2` is the one place the source unwraps an `Option`:
`self.stack.pop().unwrap()` twice, guarded by `self.stack.len() > 1`.
`pop2P` keeps the guard and the unwraps; an outer `none` marks a panic
of the session, the inner option is `pop2`'s own return value. -/

/-- `State::pop2`, with a panicking `.unwrap()` modelled as an outer
`none`. -/
def pop2P (s : State) : Option (Option ((Int × Int) × State)) :=
  if s.stack.length > 1 then
    match s.stack with
    | a :: rest =>
      match rest with
      | b :: rest2 => some (some ((a, b), ⟨rest2, s.vars⟩))
      | [] => none
    | [] => none
  else some none

/-- `State::exec`, propagating the panics a release build can hit: a
panic inside `pop2` (`none` from `pop2P`) and the division panic inside
`save_div`'s `a / b` (`none` from `save_divP`).  The remaining branches
contain no unwrap and, in a release build, no unconditionally panicking
arithmetic (their overflow wraps; the values here are idealised
unbounded, exact on traces in which no wrapping occurs). -/
def execP (s : State) (op : Op) : Option State :=
  match op with
  | .Add => (pop2P s).map fun r =>
      match r with
      | some ((a, b), s') => { s' with stack := (a + b) :: s'.stack }
      | none => s
  | .Div => (pop2P s).bind fun r =>
      match r with
      | some ((a, b), s') =>
        (save_divP b a).map fun q => { s' with stack := q.getD 0 :: s'.stack }
      | none => some s
  | .Exp => (pop2P s).map fun r =>
      match r with
      | some ((a, b), s') => { s' with stack := (b ^ asU32 a) :: s'.stack }
      | none => s
  | .Sub => (pop2P s).map fun r =>
      match r with
      | some ((a, b), s') => { s' with stack := (b - a) :: s'.stack }
      | none => s
  | .Mul => (pop2P s).map fun r =>
      match r with
      | some ((a, b), s') => { s' with stack := (a * b) :: s'.stack }
      | none => s
  | .Swap => (pop2P s).map fun r =>
      match r with
      | some ((a, b), s') => { s' with stack := b :: a :: s'.stack }
      | none => s
  | _ => some (s.exec op)

/-- `State::eval`, propagating a panic in any executed operation. -/
def evalLineP (s : State) (cmds : String) : Option State :=
  (splitWhitespace cmds).foldlM (fun st tok => execP st (tokenToOp tok)) s

/-! ## Helper lemmas -/

/-- Wrapping is the identity on values already in the `isize` range. -/
theorem wrap64_of_inRange (v : Int) (h : inRange64 v = true) :
    wrap64 v = v := by
  simp only [inRange64, Bool.and_eq_true, decide_eq_true_eq] at h
  unfold wrap64
  omega

/-- Wrapping addition agrees with addition when the sum is in range. -/
theorem wrapAdd_of_inRange (a b : Int) (h : inRange64 (a + b) = true) :
    wrapAdd a b = a + b :=
  wrap64_of_inRange (a + b) h

/-- Wrapping multiplication agrees with multiplication when the product
is in range. -/
theorem wrapMul_of_inRange (a b : Int) (h : inRange64 (a * b) = true) :
    wrapMul a b = a * b :=
  wrap64_of_inRange (a * b) h

/-- A left fold of a wrapping operation agrees with the fold of the
exact operation as long as every intermediate value stays in range. -/
theorem foldl_wrap_eq (f fw : Int → Int → Int)
    (hfw : ∀ a b, inRange64 (f a b) = true → fw a b = f a b) :
    ∀ (l : List Int) (init : Int), foldInRangeBy f init l = true →
      l.foldl fw init = l.foldl f init := by
  intro l
  induction l with
  | nil => intro init _; rfl
  | cons x xs ih =>
    intro init h
    simp only [foldInRangeBy, Bool.and_eq_true] at h
    simp only [List.foldl_cons]
    rw [hfw init x h.1]
    exact ih (f init x) h.2

theorem foldl_add_eq (l : List Int) :
    ∀ init : Int, l.foldl (fun a x => a + x) init = init + l.sum := by
  induction l with
  | nil => intro init; simp
  | cons x xs ih =>
    intro init
    simp only [List.foldl_cons, List.sum_cons, ih]
    ring

theorem foldl_mul_eq (l : List Int) :
    ∀ init : Int, l.foldl (fun a x => a * x) init = init * l.prod := by
  induction l with
  | nil => intro init; simp
  | cons x xs ih =>
    intro init
    simp only [List.foldl_cons, List.prod_cons, ih]
    ring

/-- The release-build wrapping sum is the mathematical stack sum when no
intermediate sum overflows. -/
theorem isizeSum_eq_sum (l : List Int)
    (h : foldInRangeBy (fun a x => a + x) 0 l.reverse = true) :
    isizeSum l = l.sum := by
  unfold isizeSum
  rw [foldl_wrap_eq (fun a x => a + x) wrapAdd wrapAdd_of_inRange l.reverse 0 h]
  rw [foldl_add_eq, zero_add, List.sum_reverse]

/-- The release-build wrapping product is the mathematical stack product
when no intermediate product overflows. -/
theorem isizeProd_eq_prod (l : List Int)
    (h : foldInRangeBy (fun a x => a * x) 1 l.reverse = true) :
    isizeProd l = l.prod := by
  unfold isizeProd
  rw [foldl_wrap_eq (fun a x => a * x) wrapMul wrapMul_of_inRange l.reverse 1 h]
  rw [foldl_mul_eq, one_mul, List.prod_reverse]

/-- When `t` is none of the thirteen fixed tokens, classification falls
through to `parse_op`. -/
theorem tokenToOp_of_not_fixed (t : String) (h : isFixedToken t = false) :
    tokenToOp t = parse_op t := by
  simp only [isFixedToken, Bool.or_eq_false_iff, decide_eq_false_iff_not] at h
  obtain ⟨⟨⟨⟨⟨⟨⟨⟨⟨⟨⟨⟨h1, h2⟩, h3⟩, h4⟩, h5⟩, h6⟩, h7⟩, h8⟩, h9⟩, h10⟩,
    h11⟩, h12⟩, h13⟩ := h
  simp [tokenToOp, h1, h2, h3, h4, h5, h6, h7, h8, h9, h10, h11, h12, h13]

/-- `fromStr` and the spec-side amended literal grammar agree. -/
theorem fromStr_eq_specSignedIntLit (t : String) :
    fromStr t = specSignedIntLit t := rfl

/-- `exec` leaves the variable table untouched for every operation other
than a `VarInit`. -/
theorem exec_vars_eq (op : Op) (s : State) (h : ∀ n, op ≠ Op.VarInit n) :
    (s.exec op).vars = s.vars := by
  obtain ⟨stack, vs⟩ := s
  cases op with
  | VarInit n => exact absurd rfl (h n)
  | VarRef n =>
    cases hl : vs.lookup n <;> simp [State.exec, List.lookup, hl, State.vars]
  | _ =>
    first
      | rfl
      | (rcases stack with _ | ⟨a, _ | ⟨b, r⟩⟩ <;> rfl)

/-- A binding surviving a front-cons of the association list. -/
theorem lookup_cons_bound (n m : String) (a v : Int) (vs : List (String × Int))
    (hv : vs.lookup n = some v) :
    ∃ w, List.lookup n ((m, a) :: vs) = some w := by
  cases hnm : (n == m) with
  | true => exact ⟨a, by simp [List.lookup, hnm]⟩
  | false => exact ⟨v, by simp [List.lookup, hnm, hv]⟩

/-! ## Claims -/

/-- C1: the claim that evaluation never crashes the session is false of
the program.  The line `"-9223372036854775808 -1 /"` from a fresh
session pushes `isize::MIN` and `-1` and then executes `Div`, whose
`a / b` is `isize::MIN / -1` — a division-overflow panic in every Rust
build profile.  The panic-instrumented evaluator returns `none` (a
crash) on exactly this line. -/
theorem c1_div_overflow_crash :
    evalLineP State.new "-9223372036854775808 -1 /" = none := by
  decide

/-- C2: the claimed division semantics fail at the reachable state with
top `a = -1` and `b = isize::MIN` beneath it: instead of pushing
`b ÷ a`, `save_div`'s `b / a` panics with a division overflow, so the
panic-instrumented executor returns `none` (a crash) rather than any
successor state. -/
theorem c2_div_overflow_panics :
    execP (State.mk [-1, -9223372036854775808] []) .Div = none := by
  decide

/-- C3: every unmet precondition is a no-op leaving the whole state
unchanged: the six binary operations on a stack with fewer than two
elements, the four unary operations on an empty stack, `VarInit` on an
empty stack (no variable is created), and `VarRef` of an unbound name
(nothing is pushed). -/
theorem c3_underflow_noop (s : State) (n : String) :
    (s.stack.length < 2 →
      s.exec .Add = s ∧ s.exec .Sub = s ∧ s.exec .Mul = s ∧
      s.exec .Div = s ∧ s.exec .Exp = s ∧ s.exec .Swap = s) ∧
    (s.stack = [] →
      s.exec .Double = s ∧ s.exec .Square = s ∧ s.exec .Fact = s ∧
      s.exec .Inv = s ∧ s.exec (.VarInit n) = s) ∧
    (s.vars.lookup n = none → s.exec (.VarRef n) = s) := by
  obtain ⟨stack, vs⟩ := s
  refine ⟨?_, ?_, ?_⟩
  · intro h
    rcases stack with _ | ⟨a, _ | ⟨b, r⟩⟩
    · exact ⟨rfl, rfl, rfl, rfl, rfl, rfl⟩
    · exact ⟨rfl, rfl, rfl, rfl, rfl, rfl⟩
    · simp only [State.stack, List.length_cons] at h
      omega
  · intro h
    cases h
    exact ⟨rfl, rfl, rfl, rfl, rfl⟩
  · intro h
    simp [State.exec, h]

/-- Witness for C3 at concrete states: a one-element stack for the
binary operations, the empty stack for the unary operations and
`VarInit`, and an unbound name for `VarRef`. -/
theorem c3_underflow_noop_witness :
    ((State.mk [5] []).exec .Add = State.mk [5] [] ∧
      (State.mk [5] []).exec .Sub = State.mk [5] [] ∧
      (State.mk [5] []).exec .Mul = State.mk [5] [] ∧
      (State.mk [5] []).exec .Div = State.mk [5] [] ∧
      (State.mk [5] []).exec .Exp = State.mk [5] [] ∧
      (State.mk [5] []).exec .Swap = State.mk [5] []) ∧
    ((State.mk [] [("y", 2)]).exec .Double = State.mk [] [("y", 2)] ∧
      (State.mk [] [("y", 2)]).exec .Square = State.mk [] [("y", 2)] ∧
      (State.mk [] [("y", 2)]).exec .Fact = State.mk [] [("y", 2)] ∧
      (State.mk [] [("y", 2)]).exec .Inv = State.mk [] [("y", 2)] ∧
      (State.mk [] [("y", 2)]).exec (.VarInit "x") = State.mk [] [("y", 2)]) ∧
    (State.mk [7] []).exec (.VarRef "x") = State.mk [7] [] :=
  ⟨(c3_underflow_noop (State.mk [5] []) "x").1 (by decide),
   (c3_underflow_noop (State.mk [] [("y", 2)]) "x").2.1 rfl,
   (c3_underflow_noop (State.mk [7] []) "x").2.2 rfl⟩

/-- C4: assign-then-read round-trip. Evaluating `"3 =foo"` from the
empty state leaves the stack empty and binds `foo` to `3`; evaluating
`"$foo"` afterwards puts `3` on top.  In general, pushing `v`, then
`VarInit n`, then `VarRef n` restores `v` on top of the stack. -/
theorem c4_assign_read_roundtrip (v : Int) (n : String) (s : State) :
    (((s.exec (.Push v)).exec (.VarInit n)).exec (.VarRef n)).stack =
      v :: s.stack ∧
    (State.new.eval "3 =foo").stack = [] ∧
    (State.new.eval "3 =foo").vars.lookup "foo" = some 3 ∧
    ((State.new.eval "3 =foo").eval "$foo").peek = some 3 := by
  refine ⟨?_, by decide, by decide, by decide⟩
  obtain ⟨stack, vs⟩ := s
  simp [State.exec, List.lookup]

/-- C5 counterexample: `Sum` does not push the mathematical sum for
every state.  On the reachable stack holding `2^62` three times (each
pushable literal is in range), the release build's `drain().sum()`
wraps: it pushes `-2^62`, not the mathematical sum `3 * 2^62`. -/
theorem c5_sum_prod_counterexample :
    execSumRelease
        (State.mk [4611686018427387904, 4611686018427387904,
          4611686018427387904] []) =
      State.mk [-4611686018427387904] [] ∧
    ([4611686018427387904, 4611686018427387904,
      4611686018427387904] : List Int).sum = 13835058055282163712 ∧
    (-4611686018427387904 : Int) ≠ 13835058055282163712 := by
  decide

/-- C5 (amended): executing `Sum` pops every stack element and pushes a
single value, their wrapping 64-bit (`isize`, release-build) sum — equal
to the mathematical sum whenever every intermediate sum stays in range,
and `0` for the empty stack; `Prod` likewise pushes the wrapping product
(`1` for the empty stack); in both cases exactly one element remains.
(A debug build panics on overflow instead of wrapping.) -/
theorem c5_sum_prod_release (s : State) (vs : List (String × Int)) :
    execSumRelease s = State.mk [isizeSum s.stack] s.vars ∧
    execProdRelease s = State.mk [isizeProd s.stack] s.vars ∧
    (execSumRelease s).stack.length = 1 ∧
    (execProdRelease s).stack.length = 1 ∧
    execSumRelease (State.mk [] vs) = State.mk [0] vs ∧
    execProdRelease (State.mk [] vs) = State.mk [1] vs ∧
    (foldInRangeBy (fun a x => a + x) 0 s.stack.reverse = true →
      isizeSum s.stack = s.stack.sum) ∧
    (foldInRangeBy (fun a x => a * x) 1 s.stack.reverse = true →
      isizeProd s.stack = s.stack.prod) :=
  ⟨rfl, rfl, rfl, rfl, rfl, rfl, isizeSum_eq_sum s.stack,
    isizeProd_eq_prod s.stack⟩

/-- Witness for C5 on the stack `[1, 2, 3]`, where no fold overflows. -/
theorem c5_sum_prod_release_witness :
    (foldInRangeBy (fun a x => a + x) 0 ([1, 2, 3] : List Int).reverse
        = true) ∧
    isizeSum [1, 2, 3] = ([1, 2, 3] : List Int).sum ∧
    (foldInRangeBy (fun a x => a * x) 1 ([1, 2, 3] : List Int).reverse
        = true) ∧
    isizeProd [1, 2, 3] = ([1, 2, 3] : List Int).prod := by
  have h := c5_sum_prod_release (State.mk [1, 2, 3] []) []
  exact ⟨by decide, h.2.2.2.2.2.2.1 (by decide), by decide,
    h.2.2.2.2.2.2.2 (by decide)⟩

/-- C6 counterexample: the classifier does not produce `Push(v)` exactly
for the tokens matching `-?[0-9]+`.  The token `"+5"` (not a fixed
token, no assignment or reference pattern) classifies to `Push 5` but
does not match `-?[0-9]+`; and the all-digit token
`"9223372036854775808"` matches `-?[0-9]+` but exceeds the 64-bit range
of `isize::from_str`, so it classifies to `Noop`. -/
theorem c6_push_iff_counterexample :
    (isFixedToken "+5" = false ∧ parse_var_init "+5" = none ∧
      parse_var_ref "+5" = none ∧ tokenToOp "+5" = Op.Push 5 ∧
      specNegIntLit "+5" = none) ∧
    (isFixedToken "9223372036854775808" = false ∧
      parse_var_init "9223372036854775808" = none ∧
      parse_var_ref "9223372036854775808" = none ∧
      tokenToOp "9223372036854775808" = Op.Noop ∧
      specNegIntLit "9223372036854775808" = some 9223372036854775808) := by
  decide

/-- C6 (amended): for every token that is not a fixed token and contains
no assignment or reference pattern, the classifier produces `Push v`
exactly when the token matches `[+-]?[0-9]+` (an optional leading `+` or
`-` sign followed by ASCII digits) and its decimal value `v` lies in the
signed 64-bit range. -/
theorem c6_push_iff (t : String) (v : Int)
    (hfix : isFixedToken t = false)
    (ha : parse_var_init t = none)
    (hr : parse_var_ref t = none) :
    tokenToOp t = Op.Push v ↔ specSignedIntLit t = some v := by
  rw [tokenToOp_of_not_fixed t hfix]
  rw [← fromStr_eq_specSignedIntLit]
  unfold parse_op
  rw [ha, hr]
  unfold parse_push
  cases h : fromStr t <;> simp [h]

/-- Witness for C6 at the token `"12"`. -/
theorem c6_push_iff_witness :
    tokenToOp "12" = Op.Push 12 ↔ specSignedIntLit "12" = some 12 :=
  c6_push_iff "12" 12 (by decide) (by decide) (by decide)

/-- C7: for every non-fixed token in which `=` is immediately followed
by an identifier somewhere, the classifier produces `VarInit` of the
(leftmost) matched identifier; the match is unanchored (`"x=foo"`
assigns `foo`) and assignment wins over the reference pattern
(`"$a=b"` assigns `b`). -/
theorem c7_assign_anywhere (t : String) (cs : List Char)
    (hfix : isFixedToken t = false)
    (h : findIdentAfter '=' t.toList = some cs) :
    tokenToOp t = Op.VarInit (String.mk cs) ∧
    tokenToOp "x=foo" = Op.VarInit "foo" ∧
    tokenToOp "$a=b" = Op.VarInit "b" := by
  refine ⟨?_, by decide, by decide⟩
  rw [tokenToOp_of_not_fixed t hfix]
  unfold parse_op parse_var_init
  rw [h]
  rfl

/-- Witness for C7 at the token `"x=foo"`. -/
theorem c7_assign_anywhere_witness :
    tokenToOp "x=foo" = Op.VarInit (String.mk ['f', 'o', 'o']) ∧
    tokenToOp "x=foo" = Op.VarInit "foo" ∧
    tokenToOp "$a=b" = Op.VarInit "b" :=
  c7_assign_anywhere "x=foo" ['f', 'o', 'o'] (by decide) (by decide)

/-- C8: the classifier is total by construction (`tokenToOp` is a
function); a token that is not a fixed token, yields no assignment
capture, no reference capture and no integer literal classifies to
`Noop`, and executing `Noop` changes nothing. -/
theorem c8_default_noop (t : String) (s : State)
    (hfix : isFixedToken t = false)
    (ha : parse_var_init t = none)
    (hr : parse_var_ref t = none)
    (hp : parse_push t = none) :
    tokenToOp t = Op.Noop ∧ s.exec .Noop = s := by
  refine ⟨?_, rfl⟩
  rw [tokenToOp_of_not_fixed t hfix]
  unfold parse_op
  rw [ha, hr, hp]

/-- Witness for C8 at the token `"@@@"`. -/
theorem c8_default_noop_witness :
    tokenToOp "@@@" = Op.Noop ∧ State.new.exec .Noop = State.new :=
  c8_default_noop "@@@" State.new (by decide) (by decide) (by decide)
    (by decide)

/-- C9: every operation other than a `VarInit` leaves the variable table
exactly as it was; `Clear` empties the stack and preserves the table;
and no operation unbinds a bound name. -/
theorem c9_vars_frame (op : Op) (s : State) :
    ((∀ n, op ≠ Op.VarInit n) → (s.exec op).vars = s.vars) ∧
    s.exec .Clear = State.mk [] s.vars ∧
    (∀ n v, s.vars.lookup n = some v →
      ∃ w, (s.exec op).vars.lookup n = some w) := by
  refine ⟨exec_vars_eq op s, rfl, ?_⟩
  intro n v hv
  cases op <;>
    first
      | (exact ⟨v, by
          rw [exec_vars_eq _ s (fun m hm => Op.noConfusion hm)]
          exact hv⟩)
      | (obtain ⟨stack, vs⟩ := s
         rcases stack with _ | ⟨a, rest⟩
         · exact ⟨v, hv⟩
         · exact lookup_cons_bound n _ a v vs hv)

/-- Witness for C9 at `Add` on a state binding `x`. -/
theorem c9_vars_frame_witness :
    ((State.mk [] [("x", 1)]).exec .Add).vars = [("x", 1)] ∧
    (State.mk [] [("x", 1)]).exec .Clear = State.mk [] [("x", 1)] ∧
    (∃ w, ((State.mk [] [("x", 1)]).exec .Add).vars.lookup "x" = some w) := by
  have h := c9_vars_frame .Add (State.mk [] [("x", 1)])
  exact ⟨h.1 (fun n hn => Op.noConfusion hn), h.2.1, h.2.2 "x" 1 (by decide)⟩

/-- C10: `Fact` on a negative top-of-stack value replaces it with `1`
(the product over the empty range `1..a`), rather than failing or
being a no-op. -/
theorem c10_fact_negative (a : Int) (rest : List Int)
    (vs : List (String × Int)) (h : a < 0) :
    (State.mk (a :: rest) vs).exec .Fact = State.mk (1 :: rest) vs := by
  have ha : a.toNat = 0 := Int.toNat_of_nonpos (le_of_lt h)
  simp [State.exec, State.apply, rangeProd, ha]

/-- Witness for C10 at `a = -3`. -/
theorem c10_fact_negative_witness :
    (-3 : Int) < 0 ∧
    (State.mk [-3] []).exec .Fact = State.mk [1] [] :=
  ⟨by decide, c10_fact_negative (-3) [] [] (by decide)⟩

end Rclac
